import Mathlib

/-!
Verification development for the resume-search Document Segmentation and
Structured Field Extraction Engine (src/lib/services/chunker.ts and
src/lib/services/field-extractor.ts).  Strings are embedded as lists of
characters; JavaScript regular expressions are embedded through a small
backtracking engine over a regex AST, with each source regex transcribed
as an AST term.  All definitions are executable so that concrete claims
can be settled by evaluation.
-/

set_option maxRecDepth 1000000
set_option maxHeartbeats 12000000

namespace ResumeSearch

/-- A JavaScript string, embedded as a list of characters. -/
abbrev Str := List Char

/-- Turn a Lean string literal into the embedded string type. -/
def S (s : String) : Str := s.toList

/-- JavaScript whitespace for `\s`, `trim` and `toLowerCase` purposes
(ASCII portion; all inputs considered here are ASCII). -/
def jsWS (c : Char) : Bool :=
  c == ' ' || c == '\t' || c == '\n' || c == '\r' || c == '\x0b' || c == '\x0c'

/-- ASCII lower-casing, as `String.prototype.toLowerCase` acts on ASCII. -/
def lowerChar (c : Char) : Char :=
  if 'A' ≤ c ∧ c ≤ 'Z' then Char.ofNat (c.toNat + 32) else c

/-- ASCII upper-casing, as `String.prototype.toUpperCase` acts on ASCII. -/
def upperChar (c : Char) : Char :=
  if 'a' ≤ c ∧ c ≤ 'z' then Char.ofNat (c.toNat - 32) else c

def toLower (s : Str) : Str := s.map lowerChar

def toUpper (s : Str) : Str := s.map upperChar

/-- `String.prototype.trim`: strip whitespace from both ends. -/
def trim (s : Str) : Str :=
  ((s.dropWhile jsWS).reverse.dropWhile jsWS).reverse

/-- `a.startsWith(p)` for JavaScript strings (p is the first argument). -/
def strStarts : Str → Str → Bool
  | [], _ => true
  | _ :: _, [] => false
  | p :: ps, c :: cs => p == c && strStarts ps cs

/-- `hay.includes(needle)` for JavaScript strings. -/
def jsIncludes : Str → Str → Bool
  | [], needle => needle == []
  | hay@(_ :: rest), needle => strStarts needle hay || jsIncludes rest needle

/-- Helper for `String.prototype.split` with a single-character separator:
returns the first segment and the remaining segments. -/
def splitOnAux (sep : Char) : Str → Str × List Str
  | [] => ([], [])
  | c :: cs =>
    let r := splitOnAux sep cs
    if c == sep then ([], r.1 :: r.2) else (c :: r.1, r.2)

/-- `text.split(sep)` for a single-character separator (empty segments kept,
exactly as in JavaScript). -/
def splitOn (sep : Char) (s : Str) : List Str :=
  let r := splitOnAux sep s
  r.1 :: r.2

/-- Join a list of lines with newline characters, as `lines.join('\n')`. -/
def joinNL : List Str → Str
  | [] => []
  | [l] => l
  | l :: l2 :: ls => l ++ '\n' :: joinNL (l2 :: ls)

/-- `text.slice(start, stop)` for 0 ≤ start (clamped at the end, as in JS). -/
def slice (t : Str) (start stop : Nat) : Str :=
  (t.drop start).take (stop - start)

/-- `text.lastIndexOf(c, fromIdx)`: the greatest index i ≤ fromIdx with
t[i] = c, or -1 when there is none. -/
def lastIndexOfFrom (t : Str) (c : Char) (fromIdx : Nat) : Int :=
  go t 0 (-1)
where
  go : Str → Nat → Int → Int
  | [], _, best => best
  | a :: rest, i, best =>
    go rest (i + 1) (if a == c && decide (i ≤ fromIdx) then (i : Int) else best)

/-- `parseInt(s, 10)` on an all-digit string. -/
def parseDigits (s : Str) : Nat :=
  s.foldl (fun acc c => 10 * acc + (c.toNat - '0'.toNat)) 0

/-! ## Character classes used by the source regexes -/

def isDigitC (c : Char) : Bool := '0' ≤ c && c ≤ '9'
def isLowerC (c : Char) : Bool := 'a' ≤ c && c ≤ 'z'
def isUpperC (c : Char) : Bool := 'A' ≤ c && c ≤ 'Z'
def isAlphaC (c : Char) : Bool := isLowerC c || isUpperC c
/-- JavaScript `\w`. -/
def isWordC (c : Char) : Bool := isAlphaC c || isDigitC c || c == '_'

/-! ## A small backtracking regex engine

JavaScript regexes used by the source are embedded as terms of the `RE`
type below and executed by a fueled backtracking matcher with JavaScript
semantics: leftmost match, alternations tried left to right, greedy
quantifiers try longer matches first and lazy ones shorter first,
capture groups record the last text they matched on the successful path.
Quantifiers over subexpressions that appear in the source regexes are
desugared by hand at transcription time; quantifiers over character
classes are primitive (`rep`).  The fuel only bounds the backtracking
work and is chosen generously at every call site. -/

inductive RE where
  /-- Empty regex (matches the empty string). -/
  | eps
  /-- A literal string; `ci` true means the enclosing regex has the `i` flag. -/
  | lit (s : Str) (ci : Bool)
  /-- A single-character class. -/
  | cls (p : Char → Bool)
  /-- A quantified character class: between `lo` and `hi` repetitions
  (`hi = none` meaning unbounded), greedy unless `lazy`. -/
  | rep (p : Char → Bool) (lo : Nat) (hi : Option Nat) (lazy : Bool)
  | seq (a b : RE)
  | alt (a b : RE)
  /-- Capture group number `n`. -/
  | grp (n : Nat) (r : RE)
  /-- `^` ; `m` true when the regex carries the `m` flag. -/
  | bol (m : Bool)
  /-- `$` ; `m` true when the regex carries the `m` flag. -/
  | eol (m : Bool)
  /-- `\b`. -/
  | wb

/-- Matcher state: the character just before the current position (for
`^`, `$` and `\b`), the remaining input, and the captures recorded so far. -/
structure MSt where
  prev : Option Char
  rest : Str
  caps : List (Nat × Str)

/-- Work items of the matcher: a regex still to match, or the closing
bracket of capture group `n` (remembering the input at its opening). -/
inductive RItem where
  | r (re : RE)
  | close (n : Nat) (beforeRest : Str)

/-- Compare a literal against the head of the input, case-insensitively
when `ci`; returns the consumed characters and the remainder. -/
def stripLit (ci : Bool) : Str → Str → Option (Str × Str)
  | [], rest => some ([], rest)
  | _ :: _, [] => none
  | p :: ps, c :: cs =>
    if (if ci then lowerChar p == lowerChar c else p == c) then
      match stripLit ci ps cs with
      | some (taken, rest) => some (c :: taken, rest)
      | none => none
    else none

/-- Desugared chain for up to `n` optional repetitions of class `p`:
greedy tries to consume first, lazy tries to skip first. -/
def optChain (p : Char → Bool) (lazy : Bool) : Nat → RE
  | 0 => .eps
  | n + 1 =>
    if lazy then .alt .eps (.seq (.cls p) (optChain p lazy n))
    else .alt (.seq (.cls p) (optChain p lazy n)) .eps

/-- Mandatory chain of exactly `n` repetitions of class `p`. -/
def mandChain (p : Char → Bool) : Nat → RE
  | 0 => .eps
  | n + 1 => .seq (.cls p) (mandChain p n)

/-- Whether the character at the edge of a word-boundary test is a word
character (absent characters are not). -/
def isWordOpt : Option Char → Bool
  | none => false
  | some c => isWordC c

def atEol (m : Bool) : Str → Bool
  | [] => true
  | c :: _ => m && c == '\n'

def atBol (m : Bool) : Option Char → Bool
  | none => true
  | some c => m && c == '\n'

/-- The backtracking matcher.  Processes the work list left to right;
succeeds when the list is exhausted.  Fuel bounds the number of steps. -/
def mrun : Nat → List RItem → MSt → Option MSt
  | 0, _, _ => none
  | _ + 1, [], st => some st
  | fuel + 1, it :: k, st =>
    match it with
    | .close n before =>
      let len := before.length - st.rest.length
      mrun fuel k { st with caps := (n, before.take len) :: st.caps }
    | .r re =>
      match re with
      | .eps => mrun fuel k st
      | .bol m => if atBol m st.prev then mrun fuel k st else none
      | .eol m => if atEol m st.rest then mrun fuel k st else none
      | .wb =>
        if isWordOpt st.prev != (match st.rest with
                                 | [] => false
                                 | c :: _ => isWordC c) then
          mrun fuel k st
        else none
      | .lit s ci =>
        match stripLit ci s st.rest with
        | some (taken, rest) =>
          mrun fuel k { st with prev := taken.getLast?.elim st.prev some, rest := rest }
        | none => none
      | .cls p =>
        match st.rest with
        | c :: rs => if p c then mrun fuel k { st with prev := some c, rest := rs } else none
        | [] => none
      | .seq a b => mrun fuel (.r a :: .r b :: k) st
      | .alt a b =>
        match mrun fuel (.r a :: k) st with
        | some r => some r
        | none => mrun fuel (.r b :: k) st
      | .grp n r => mrun fuel (.r r :: .close n st.rest :: k) st
      | .rep p lo hi lazy =>
        let cap := match hi with
          | none => st.rest.length
          | some h => h
        let extra := cap - lo
        mrun fuel (.r (mandChain p lo) :: .r (optChain p lazy extra) :: k) st

/-- Result of a successful regex search: the match position, the matched
text, and the captures. -/
structure MatchRes where
  start : Nat
  matched : Str
  caps : List (Nat × Str)

/-- Look up capture group `n` (most recent assignment wins, unset groups
are absent, as in JavaScript). -/
def lookupCap (n : Nat) (caps : List (Nat × Str)) : Option Str :=
  (caps.find? (fun p => p.1 == n)).map (·.2)

/-- Try to match `p` at successive start positions, leftmost first. -/
def searchFrom (fuel : Nat) (p : RE) : Option Char → Str → Nat → Option (Nat × MSt)
  | prev, rest, pos =>
    match mrun fuel [.r p] ⟨prev, rest, []⟩ with
    | some st => some (pos, st)
    | none =>
      match rest with
      | [] => none
      | c :: rs => searchFrom fuel p (some c) rs (pos + 1)

/-- Generous fuel for the matcher: cubic in the input length. -/
def bigFuel (t : Str) : Nat := (t.length + 60) * (t.length + 60) * (t.length + 60)

/-- `text.match(p)` (first match): JavaScript leftmost-match search. -/
def research (p : RE) (t : Str) : Option MatchRes :=
  match searchFrom (bigFuel t) p none t 0 with
  | some (pos, st) =>
    some ⟨pos, (t.drop pos).take (t.length - pos - st.rest.length), st.caps⟩
  | none => none

/-- `regex.test(text)`. -/
def retest (p : RE) (t : Str) : Bool := (research p t).isSome

/-- Right-nested alternation of a list of regexes, tried left to right. -/
def altChain : List RE → RE
  | [] => .eps
  | [r] => r
  | r :: r2 :: rs => .alt r (altChain (r2 :: rs))

/-! ## Transcribed regexes of field-extractor.ts -/

/-- Character class of the first two bracket expressions of the email regex. -/
def emailLocalC (c : Char) : Bool :=
  isAlphaC c || isDigitC c || c == '.' || c == '_' || c == '-'

/-- Character class of the last bracket expression of the email regex
(and of the LinkedIn handle): letters, digits, underscore, hyphen. -/
def emailTldC (c : Char) : Bool := isAlphaC c || isDigitC c || c == '_' || c == '-'

/-- Email regex of extractEmail (gi flags; the code uses the whole match). -/
def emailRE : RE :=
  .grp 1 (.seq (.rep emailLocalC 1 none false)
          (.seq (.lit (S "@") true)
          (.seq (.rep emailLocalC 1 none false)
          (.seq (.lit (S ".") true)
                (.rep emailTldC 1 none false)))))

/-- Separator class of the phone regex: hyphen, dot or whitespace. -/
def phoneSepC (c : Char) : Bool := c == '-' || c == '.' || jsWS c

/-- Phone regex of extractPhone (g flag). -/
def phoneRE : RE :=
  .seq (.alt (.grp 1 (.seq (.alt (.lit (S "+") false) .eps)
                      (.seq (.lit (S "1") false) (.rep phoneSepC 0 (some 1) false)))) .eps)
  (.seq (.alt (.lit (S "(") false) .eps)
  (.seq (.grp 2 (.rep isDigitC 3 (some 3) false))
  (.seq (.alt (.lit (S ")") false) .eps)
  (.seq (.rep phoneSepC 0 (some 1) false)
  (.seq (.grp 3 (.rep isDigitC 3 (some 3) false))
  (.seq (.rep phoneSepC 0 (some 1) false)
        (.grp 4 (.rep isDigitC 4 (some 4) false))))))))

/-- LinkedIn URL regex of extractLinkedIn (gi flags). -/
def linkedinRE : RE :=
  .seq (.alt (.seq (.lit (S "http") true)
              (.seq (.alt (.lit (S "s") true) .eps) (.lit (S "://") true))) .eps)
  (.seq (.alt (.lit (S "www.") true) .eps)
  (.seq (.lit (S "linkedin.com/in/") true)
        (.rep emailTldC 1 none false)))

/-- Letters-or-whitespace class of the location regex. -/
def alphaWsC (c : Char) : Bool := isAlphaC c || jsWS c

/-- Location regex of extractLocation (g flag, case-sensitive). -/
def locationRE : RE :=
  .grp 1 (.seq (.cls isUpperC)
          (.seq (.rep alphaWsC 1 none false)
          (.seq (.lit (S ",") false)
          (.seq (.rep jsWS 0 none false)
          (.seq (.cls isUpperC) (.rep alphaWsC 1 none false))))))

/-- Whitespace-or-word class for the tail of the title regex. -/
def wsWordC (c : Char) : Bool := jsWS c || isWordC c

/-- Seniority alternation of the title regex. -/
def seniorityAlt : RE :=
  altChain [.lit (S "Senior") true, .lit (S "Junior") true, .lit (S "Lead") true,
            .lit (S "Principal") true, .lit (S "Staff") true]

/-- Role/domain alternation of the title regex, in source order. -/
def roleAlt : RE :=
  altChain [.lit (S "Software") true, .lit (S "Frontend") true, .lit (S "Backend") true,
            .seq (.lit (S "Full") true) (.seq (.rep jsWS 0 none false) (.lit (S "Stack") true)),
            .lit (S "DevOps") true, .lit (S "Data") true, .lit (S "ML") true,
            .lit (S "AI") true, .lit (S "Engineer") true, .lit (S "Developer") true,
            .lit (S "Architect") true, .lit (S "Manager") true, .lit (S "Analyst") true,
            .lit (S "Designer") true, .lit (S "Product") true, .lit (S "Marketing") true,
            .lit (S "Sales") true, .lit (S "HR") true, .lit (S "Finance") true,
            .lit (S "Operations") true]

/-- Title regex of extractTitle (i flag). -/
def titleRE : RE :=
  .seq (.alt (.bol false) (.lit (S "\n") true))
  (.grp 1 (.seq (.alt seniorityAlt .eps)
           (.seq (.rep jsWS 0 none false)
           (.seq roleAlt (.rep wsWordC 0 none false)))))

/-- Experience-years regex of extractExperienceYears (i flag). -/
def expYearsRE : RE :=
  .seq (.grp 1 (.rep isDigitC 1 none false))
  (.seq (.alt (.lit (S "+") true) .eps)
  (.seq (.rep jsWS 0 none false)
  (.seq (.lit (S "year") true)
  (.seq (.alt (.lit (S "s") true) .eps)
  (.seq (.rep jsWS 0 none false)
  (.seq (.alt (.seq (.lit (S "of") true) (.rep jsWS 0 none false)) .eps)
        (.alt (.lit (S "experience") true) (.lit (S "exp") true))))))))

/-- One further capitalized word of the name regex. -/
def nameWordRE : RE :=
  .seq (.rep jsWS 1 none false) (.seq (.cls isUpperC) (.rep isLowerC 1 none false))

/-- Name regex of extractName: anchored, case-sensitive, a capitalized word
followed by 1 to 3 further capitalized words. -/
def nameRE : RE :=
  .seq (.bol false)
  (.seq (.grp 1 (.seq (.cls isUpperC)
                 (.seq (.rep isLowerC 1 none false)
                 (.seq nameWordRE
                       (.alt (.seq nameWordRE (.alt nameWordRE .eps)) .eps)))))
        (.eol false))

/-! ## Field extractor (field-extractor.ts) -/

/-- The structured-fields record returned by extractFields. -/
structure ExtractedFields where
  name : Option Str
  email : Option Str
  phone : Option Str
  linkedin : Option Str
  location : Option Str
  title : Option Str
  skills : List Str
  experience_years : Option Nat
deriving DecidableEq, Repr

def extractEmail (t : Str) : Option Str :=
  (research emailRE t).map (·.matched)

def extractPhone (t : Str) : Option Str :=
  (research phoneRE t).map (fun m => m.matched.filter (fun c => !jsWS c))

def extractLinkedIn (t : Str) : Option Str :=
  (research linkedinRE t).map (·.matched)

def extractLocation (t : Str) : Option Str :=
  (research locationRE t).map (·.matched)

def extractTitle (t : Str) : Option Str :=
  match research titleRE t with
  | some m =>
    match lookupCap 1 m.caps with
    | some g => if g == [] then none else some (trim g)
    | none => none
  | none => none

/-- The fixed skills vocabulary of extractSkills, in source order. -/
def commonSkills : List Str :=
  [S "JavaScript", S "TypeScript", S "Python", S "Java", S "C++", S "C#", S "Go", S "Rust",
   S "React", S "Vue", S "Angular", S "Node.js", S "Next.js", S "Express",
   S "PostgreSQL", S "MySQL", S "MongoDB", S "Redis", S "Docker", S "Kubernetes",
   S "AWS", S "Azure", S "GCP", S "GraphQL", S "REST API", S "Git",
   S "Machine Learning", S "AI", S "Data Science", S "TensorFlow", S "PyTorch",
   S "HTML", S "CSS", S "SCSS", S "Tailwind", S "Bootstrap"]

def extractSkills (t : Str) : List Str :=
  let lowerText := toLower t
  commonSkills.filter (fun sk => jsIncludes lowerText (toLower sk))

def extractExperienceYears (t : Str) : Option Nat :=
  match research expYearsRE t with
  | some m =>
    match lookupCap 1 m.caps with
    | some g => if g == [] then none else some (parseDigits g)
    | none => none
  | none => none

/-- The scanning loop of extractName over the candidate lines. -/
def nameScan : List Str → Option Str
  | [] => none
  | l :: ls =>
    match research nameRE (trim l) with
    | some m =>
      match lookupCap 1 m.caps with
      | some g => if g != [] && !(jsIncludes g (S "@")) then some g else nameScan ls
      | none => nameScan ls
    | none => nameScan ls

def extractName (text : Str) : Option Str :=
  let lines := ((splitOn '\n' text).take 5).filter (fun l => (trim l).length > 0)
  match nameScan lines with
  | some n => some n
  | none =>
    match lines with
    | first :: _ =>
      let firstLine := trim first
      if decide (firstLine.length > 2) && decide (firstLine.length < 50) then
        some firstLine
      else none
    | [] => none

def extractFields (text : Str) : ExtractedFields :=
  { name := extractName text
    email := extractEmail text
    phone := extractPhone text
    linkedin := extractLinkedIn text
    location := extractLocation text
    title := extractTitle text
    skills := extractSkills text
    experience_years := extractExperienceYears text }

/-! ## Transcribed regexes of chunker.ts -/

/-- The dash class of the date regexes: ASCII hyphen or en dash. -/
def dashC (c : Char) : Bool := c == '-' || c == '–'

/-- The twelve full month names, in source order. -/
def fullMonthNames : List Str :=
  [S "January", S "February", S "March", S "April", S "May", S "June", S "July",
   S "August", S "September", S "October", S "November", S "December"]

/-- Alternation of the full month names (i flag). -/
def monthAlt : RE := altChain (fullMonthNames.map (fun m => RE.lit m true))

/-- Date pattern 1: full-month-name range (i flag).  Group 1 captures the
start month name alone, group 2 the start year, group 3 the end part. -/
def fullMonthRangeRE : RE :=
  .seq (.grp 1 monthAlt)
  (.seq (.rep jsWS 1 none false)
  (.seq (.grp 2 (.rep isDigitC 4 (some 4) false))
  (.seq (.rep jsWS 0 none false)
  (.seq (.cls dashC)
  (.seq (.rep jsWS 0 none false)
        (.grp 3 (.alt (.seq monthAlt
                       (.seq (.rep jsWS 1 none false) (.rep isDigitC 4 (some 4) false)))
                 (.alt (.lit (S "Present") true) (.lit (S "Current") true)))))))))

/-- A word of 3 to 9 word-characters followed by spaces and a 4-digit year. -/
def wordDate39 : RE :=
  .seq (.rep isWordC 3 (some 9) false)
  (.seq (.rep jsWS 1 none false) (.rep isDigitC 4 (some 4) false))

/-- Date pattern 2: abbreviated-month range (i flag). -/
def abbrevMonthRangeRE : RE :=
  .seq (.grp 1 wordDate39)
  (.seq (.rep jsWS 0 none false)
  (.seq (.cls dashC)
  (.seq (.rep jsWS 0 none false)
        (.grp 2 (.alt wordDate39
                 (.alt (.lit (S "Present") true) (.lit (S "Current") true)))))))

/-- Date pattern 3: bare-year range (no flags). -/
def yearRangeRE : RE :=
  .seq (.grp 1 (.rep isDigitC 4 (some 4) false))
  (.seq (.rep jsWS 0 none false)
  (.seq (.cls dashC)
  (.seq (.rep jsWS 0 none false)
        (.grp 2 (.alt (.rep isDigitC 4 (some 4) false)
                 (.alt (.lit (S "Present") false) (.lit (S "Current") false)))))))

/-- A word of one or more word-characters followed by spaces and a year. -/
def wordDate1 : RE :=
  .seq (.rep isWordC 1 none false)
  (.seq (.rep jsWS 1 none false) (.rep isDigitC 4 (some 4) false))

/-- Date pattern 4: the "to" phrasing (i flag). -/
def toRangeRE : RE :=
  .seq (.grp 1 wordDate1)
  (.seq (.rep jsWS 1 none false)
  (.seq (.lit (S "to") true)
  (.seq (.rep jsWS 1 none false)
        (.grp 2 (.alt wordDate1
                 (.alt (.lit (S "Present") true) (.lit (S "Current") true)))))))

/-- One or two digits, a slash, and a 4-digit year. -/
def mmYYYY : RE :=
  .seq (.rep isDigitC 1 (some 2) false)
  (.seq (.lit (S "/") false) (.rep isDigitC 4 (some 4) false))

/-- Date pattern 5: MM/YYYY range (no flags). -/
def mmRangeRE : RE :=
  .seq (.grp 1 mmYYYY)
  (.seq (.rep jsWS 0 none false)
  (.seq (.cls dashC)
  (.seq (.rep jsWS 0 none false)
        (.grp 2 (.alt mmYYYY
                 (.alt (.lit (S "Present") false) (.lit (S "Current") false)))))))

/-- Date pattern 6: single start date with Present/Current (i flag). -/
def startOnlyRE : RE :=
  .seq (.grp 1 wordDate1)
  (.seq (.rep jsWS 0 none false)
  (.seq (.cls dashC)
  (.seq (.rep jsWS 0 none false)
        (.grp 2 (.alt (.lit (S "Present") true) (.lit (S "Current") true))))))

/-- The ordered date pattern list of extractDates. -/
def datePatterns : List RE :=
  [fullMonthRangeRE, abbrevMonthRangeRE, yearRangeRE, toRangeRE, mmRangeRE, startOnlyRE]

/-- The bracket class of the company regexes: letters, digits, whitespace,
ampersand, dot, comma, hyphen. -/
def companyNameC (c : Char) : Bool :=
  isAlphaC c || isDigitC c || jsWS c || c == '&' || c == '.' || c == ',' || c == '-'

/-- Corporate-suffix alternation, `ci` gives the case-insensitivity flag. -/
def suffixAlt (ci : Bool) : RE :=
  altChain [.lit (S "Inc") ci, .lit (S "LLC") ci, .lit (S "Corp") ci, .lit (S "Ltd") ci,
            .lit (S "Company") ci, .lit (S "Technologies") ci, .lit (S "Systems") ci,
            .lit (S "Solutions") ci, .lit (S "Group") ci]

/-- Company pattern 1 (i flag): a keyword such as "at" followed by a
capitalized phrase, captured lazily up to a terminator.  Under the i flag
the leading `[A-Z]` accepts any letter. -/
def compAfterKeywordRE : RE :=
  .seq (altChain [.lit (S "at") true, .lit (S "@") true, .lit (S "for") true,
                  .lit (S "with") true, .lit (S "company:") true, .lit (S "organization:") true])
  (.seq (.rep jsWS 1 none false)
  (.seq (.grp 1 (.seq (.cls isAlphaC) (.rep companyNameC 1 none true)))
        (altChain [.cls jsWS, .eol false, .lit (S ",") true, .lit (S ".") true,
                   .lit (S ";") true])))

/-- Company pattern 2 (m flag, case-sensitive): a whole line that is a
capitalized phrase with an optional corporate suffix. -/
def compLineSuffixRE : RE :=
  .seq (.bol true)
  (.seq (.grp 1 (.seq (.cls isUpperC) (.rep companyNameC 2 (some 40) false)))
  (.seq (.rep jsWS 0 none false)
  (.seq (.alt (suffixAlt false) .eps)
        (.eol true))))

/-- Company pattern 3 (i flag): a capitalized phrase with a mandatory
corporate suffix anywhere, ended by a word boundary. -/
def compSuffixAnywhereRE : RE :=
  .seq (.grp 1 (.seq (.cls isAlphaC) (.rep companyNameC 2 (some 40) false)))
  (.seq (.rep jsWS 0 none false)
  (.seq (suffixAlt true) .wb))

/-- Company pattern 4 (m flag, case-sensitive): the first capitalized
phrase on a line. -/
def compLineStartRE : RE :=
  .seq (.bol true)
  (.seq (.grp 1 (.seq (.cls isUpperC) (.rep companyNameC 2 (some 40) false)))
        (.alt (.cls jsWS) (.eol true)))

/-- The ordered company pattern list of extractCompany. -/
def companyPatterns : List RE :=
  [compAfterKeywordRE, compLineSuffixRE, compSuffixAnywhereRE, compLineStartRE]

/-! ## Chunk metadata extractors (chunker.ts) -/

/-- The record returned by extractDates. -/
structure DatePair where
  start_date : Option Str
  end_date : Option Str
deriving DecidableEq, Repr

/-- Build the DatePair from the matched groups, exactly as the return
statement of extractDates does: trim both, and store null instead of an
end date that is exactly "Present" or "Current". -/
def mkDates (g1 : Str) (g2 : Option Str) : DatePair :=
  let startDate := trim g1
  let endDate : Option Str :=
    match g2 with
    | some s => if s == [] then none else some (trim s)
    | none => none
  { start_date := some startDate
    end_date :=
      match endDate with
      | some e => if !(e == []) && (e == S "Present" || e == S "Current") then none else some e
      | none => none }

/-- Run one date pattern: succeed when it matches with a non-empty group 1,
returning groups 1 and 2. -/
def tryOnePattern (p : RE) (t : Str) : Option (Str × Option Str) :=
  match research p t with
  | none => none
  | some m =>
    match lookupCap 1 m.caps with
    | none => none
    | some g1 => if g1 == [] then none else some (g1, lookupCap 2 m.caps)

/-- The pattern loop of extractDates: first pattern with a truthy group 1 wins. -/
def tryDatePatterns : List RE → Str → DatePair
  | [], _ => { start_date := none, end_date := none }
  | p :: ps, t =>
    match tryOnePattern p t with
    | some (g1, g2) => mkDates g1 g2
    | none => tryDatePatterns ps t

def extractDates (t : Str) : DatePair := tryDatePatterns datePatterns t

/-- The false-positive filter of extractCompany. -/
def companyFilter (company : Str) : Bool :=
  decide (company.length > 2) && decide (company.length < 50) &&
  !(jsIncludes (toLower company) (S "university")) &&
  !(jsIncludes (toLower company) (S "college")) &&
  !(jsIncludes (toLower company) (S "school"))

/-- The pattern loop of extractCompany: a match whose trimmed group 1
passes the filter is returned; otherwise the next pattern is tried. -/
def extractCompanyGo : List RE → Str → Option Str
  | [], _ => none
  | p :: ps, t =>
    match research p t with
    | some m =>
      match lookupCap 1 m.caps with
      | some g1 =>
        if g1 == [] then extractCompanyGo ps t
        else
          let company := trim g1
          if companyFilter company then some company else extractCompanyGo ps t
      | none => extractCompanyGo ps t
    | none => extractCompanyGo ps t

def extractCompany (t : Str) : Option Str := extractCompanyGo companyPatterns t

/-! ## The chunker (chunkResumeText of chunker.ts) -/

/-- A chunk record. -/
structure Chunk where
  chunk_text : Str
  /-- The source field is named `section`, a Lean keyword. -/
  sectionTag : Option Str
  company : Option Str
  start_date : Option Str
  end_date : Option Str
deriving DecidableEq, Repr

def minChunkLength : Nat := 50
def maxChunkLength : Nat := 500

/-- The section keyword table of chunkResumeText, in source (insertion)
order: lower-case synonym to canonical section name. -/
def sectionKeywords : List (Str × Str) :=
  [(S "experience", S "Experience"), (S "work experience", S "Experience"),
   (S "employment", S "Experience"), (S "professional experience", S "Experience"),
   (S "work history", S "Experience"), (S "employment history", S "Experience"),
   (S "career history", S "Experience"), (S "professional history", S "Experience"),
   (S "education", S "Education"), (S "academic", S "Education"),
   (S "academic background", S "Education"), (S "educational background", S "Education"),
   (S "academic qualifications", S "Education"), (S "qualifications", S "Education"),
   (S "projects", S "Projects"), (S "project", S "Projects"),
   (S "personal projects", S "Projects"), (S "side projects", S "Projects"),
   (S "project experience", S "Projects"), (S "portfolio", S "Projects"),
   (S "volunteer", S "Volunteer"), (S "volunteer work", S "Volunteer"),
   (S "volunteering", S "Volunteer"), (S "volunteer experience", S "Volunteer"),
   (S "community service", S "Volunteer"), (S "volunteer activities", S "Volunteer"),
   (S "skills", S "Skills"), (S "technical skills", S "Skills"),
   (S "core skills", S "Skills"), (S "competencies", S "Skills"),
   (S "technical competencies", S "Skills"), (S "proficiencies", S "Skills"),
   (S "expertise", S "Skills"),
   (S "summary", S "Summary"), (S "professional summary", S "Summary"),
   (S "summary of qualifications", S "Summary"), (S "objective", S "Summary"),
   (S "career objective", S "Summary"), (S "profile", S "Summary"),
   (S "professional profile", S "Summary"), (S "about", S "Summary"),
   (S "about me", S "Summary"),
   (S "contact", S "Contact"), (S "contact information", S "Contact"),
   (S "contact details", S "Contact"),
   (S "certifications", S "Certifications"), (S "certification", S "Certifications"),
   (S "awards", S "Awards"), (S "honors", S "Awards"),
   (S "publications", S "Publications"), (S "languages", S "Languages"),
   (S "interests", S "Interests"), (S "hobbies", S "Interests")]

/-- The whole-word regex built per keyword (i flag); keywords contain no
regex metacharacters, so the source's escaping is the identity. -/
def wholeWordRE (kw : Str) : RE := .seq .wb (.seq (.lit kw true) .wb)

/-- The header test for one keyword against the lower-cased trimmed line:
exact match, starts-with, or whole-word containment in a short line.  The
source writes the whole-word conjunction as regex test first and length
test second; both conjuncts are pure, so they commute, and the cheap
length test is written first here to keep kernel evaluation tractable. -/
def isHeaderFor (kw : Str) (lowerLine : Str) : Bool :=
  let keywordLower := toLower kw
  let isExactMatch := lowerLine == keywordLower || lowerLine == toUpper keywordLower
  let startsWithKeyword :=
    strStarts (keywordLower ++ S ":") lowerLine ||
    strStarts (keywordLower ++ S " ") lowerLine ||
    strStarts (toUpper keywordLower ++ S ":") lowerLine ||
    strStarts (toUpper keywordLower ++ S " ") lowerLine
  let containsAsWord :=
    decide (lowerLine.length < 50) && retest (wholeWordRE keywordLower) lowerLine
  isExactMatch || startsWithKeyword || containsAsWord

/-- Scan the keyword table in order; the first keyword that classifies the
line as a header yields its canonical section name. -/
def findHeader (lowerLine : Str) : Option Str :=
  (sectionKeywords.find? (fun kv => isHeaderFor kv.1 lowerLine)).map (·.2)

/-- Bullet regex 1 of the chunker: a bullet glyph followed by whitespace. -/
def bulletGlyphRE : RE :=
  .seq (.bol false)
  (.seq (.cls (fun c => c == '•' || c == '-' || c == '*' || c == '+')) (.cls jsWS))

/-- Bullet regex 2 of the chunker: a numbered-list marker. -/
def bulletNumRE : RE :=
  .seq (.bol false)
  (.seq (.rep isDigitC 1 none false) (.seq (.lit (S ".") false) (.cls jsWS)))

def isBulletLine (line : Str) : Bool :=
  retest bulletGlyphRE line || retest bulletNumRE line

/-- The flush operation: when the accumulator is non-empty and its joined,
trimmed text reaches minChunkLength, emit a chunk carrying the current
section and the chunk-level metadata. -/
def flushChunk (sec : Option Str) (cur : List Str) : Option Chunk :=
  match cur with
  | [] => none
  | _ :: _ =>
    let chunkText := trim (joinNL cur)
    if chunkText.length ≥ minChunkLength then
      let dates := extractDates chunkText
      some { chunk_text := chunkText
             sectionTag := sec
             company := extractCompany chunkText
             start_date := dates.start_date
             end_date := dates.end_date }
    else none

/-- The per-line loop of chunkResumeText, with the current section and the
accumulator as explicit state; ends with the final flush. -/
def chunkLoop : List Str → Option Str → List Str → List Chunk
  | [], sec, cur => (flushChunk sec cur).toList
  | rawLine :: ls, sec, cur =>
    let line := trim rawLine
    let lowerLine := toLower line
    match findHeader lowerLine with
    | some sectionName => (flushChunk sec cur).toList ++ chunkLoop ls (some sectionName) []
    | none =>
      if line.length > 0 then
        let isBullet := isBulletLine line
        let currentText := joinNL cur
        if (isBullet && decide (currentText.length > maxChunkLength / 2)) ||
            decide (currentText.length > maxChunkLength) then
          (flushChunk sec cur).toList ++ chunkLoop ls sec [line]
        else
          chunkLoop ls sec (cur ++ [line])
      else
        if decide (line.length = 0) && !(cur == []) then
          if (joinNL cur).length > minChunkLength then
            (flushChunk sec cur).toList ++ chunkLoop ls sec []
          else
            chunkLoop ls sec cur
        else
          chunkLoop ls sec cur

/-- The primary, section-based chunker: the loop over the split lines. -/
def primaryChunks (text : Str) : List Chunk :=
  chunkLoop (splitOn '\n' text) none []

/-- The end-of-window computation of createSlidingWindowChunks: candidate
end at start + maxLength, snapped back to just after the last period or
newline when that boundary lies beyond start + minLength. -/
def swEnd (t : Str) (minLength maxLength start : Nat) : Nat :=
  let e0 := start + maxLength
  if e0 < t.length then
    let lastPeriod := lastIndexOfFrom t '.' e0
    let lastNewline := lastIndexOfFrom t '\n' e0
    let boundary := max lastPeriod lastNewline
    if boundary > (start : Int) + (minLength : Int) then boundary.toNat + 1 else e0
  else e0

/-- The window loop of createSlidingWindowChunks.  The fuel argument only
bounds the number of iterations; with minLength = 50 and maxLength = 500
each iteration advances the start by at least 2, so a fuel of
text length + 1 is always sufficient (proved below). -/
def swLoop (t : Str) (minLength maxLength : Nat) : Nat → Nat → List Chunk
  | 0, _ => []
  | fuel + 1, start =>
    if start < t.length then
      let e := swEnd t minLength maxLength start
      let chunkText := trim (slice t start e)
      let rest := swLoop t minLength maxLength fuel (e - 50)
      if chunkText.length ≥ minLength then
        { chunk_text := chunkText, sectionTag := none, company := none,
          start_date := none, end_date := none } :: rest
      else rest
    else []

def createSlidingWindowChunks (t : Str) (minLength maxLength : Nat) : List Chunk :=
  swLoop t minLength maxLength (t.length + 1) 0

/-- chunkResumeText: the primary chunker, with the sliding-window fallback
when it produced no chunks. -/
def chunkResumeText (text : Str) : List Chunk :=
  let chunks := primaryChunks text
  if chunks.length == 0 then createSlidingWindowChunks text minChunkLength maxChunkLength
  else chunks

/-! ## General lemmas -/

theorem dropWhile_length_le (p : Char → Bool) (s : Str) :
    (s.dropWhile p).length ≤ s.length := by
  induction s with
  | nil => simp
  | cons c cs ih =>
    by_cases h : p c
    · simp [List.dropWhile_cons, h]; omega
    · simp [List.dropWhile_cons, h]

theorem trim_length_le (s : Str) : (trim s).length ≤ s.length := by
  unfold trim
  calc ((s.dropWhile jsWS).reverse.dropWhile jsWS).reverse.length
      = ((s.dropWhile jsWS).reverse.dropWhile jsWS).length := by simp
    _ ≤ (s.dropWhile jsWS).reverse.length := dropWhile_length_le _ _
    _ = (s.dropWhile jsWS).length := by simp
    _ ≤ s.length := dropWhile_length_le _ _

theorem dropWhile_eq_self_of (p : Char → Bool) (s : Str)
    (h : ∀ c ∈ s, p c = false) : s.dropWhile p = s := by
  cases s with
  | nil => rfl
  | cons c cs => simp [List.dropWhile_cons, h c (by simp)]

theorem trim_of_no_ws (s : Str) (h : ∀ c ∈ s, jsWS c = false) : trim s = s := by
  unfold trim
  rw [dropWhile_eq_self_of _ _ h,
      dropWhile_eq_self_of _ _ (fun c hc => h c (List.mem_reverse.mp hc)),
      List.reverse_reverse]

/-- If flushChunk emits a chunk, its text is the trimmed join of the
accumulator and reaches the minimum chunk length. -/
theorem flushChunk_spec {sec : Option Str} {cur : List Str} {c : Chunk}
    (h : flushChunk sec cur = some c) :
    c.chunk_text = trim (joinNL cur) ∧ minChunkLength ≤ c.chunk_text.length := by
  unfold flushChunk at h
  cases cur with
  | nil => simp at h
  | cons a l =>
    simp only at h
    split at h
    · cases h
      exact ⟨rfl, by assumption⟩
    · cases h

/-- A flush of an accumulator whose joined text is below the minimum chunk
length emits nothing. -/
theorem flushChunk_none {sec : Option Str} {cur : List Str}
    (h : (joinNL cur).length < minChunkLength) : flushChunk sec cur = none := by
  unfold flushChunk
  cases cur with
  | nil => rfl
  | cons a l =>
    simp only
    split
    · exfalso
      have := trim_length_le (joinNL (a :: l))
      omega
    · rfl

/-- Every chunk emitted by the per-line loop reaches the minimum chunk
length: chunks are only ever emitted through flushChunk. -/
theorem chunkLoop_min :
    ∀ (ls : List Str) (sec : Option Str) (cur : List Str) (c : Chunk),
      c ∈ chunkLoop ls sec cur → minChunkLength ≤ c.chunk_text.length := by
  intro ls
  induction ls with
  | nil =>
    intro sec cur c hc
    simp only [chunkLoop] at hc
    cases hf : flushChunk sec cur with
    | none => rw [hf] at hc; cases hc
    | some c0 =>
      rw [hf] at hc
      have : c = c0 := by simpa using hc
      subst this
      exact (flushChunk_spec hf).2
  | cons l ls ih =>
    intro sec cur c hc
    simp only [chunkLoop] at hc
    have hflush : ∀ s0 cur0, c ∈ (flushChunk s0 cur0).toList →
        minChunkLength ≤ c.chunk_text.length := by
      intro s0 cur0 hmem
      cases hf : flushChunk s0 cur0 with
      | none => rw [hf] at hmem; cases hmem
      | some c0 =>
        rw [hf] at hmem
        have : c = c0 := by simpa using hmem
        subst this
        exact (flushChunk_spec hf).2
    split at hc
    · rcases List.mem_append.mp hc with h | h
      · exact hflush _ _ h
      · exact ih _ _ _ h
    · split at hc
      · split at hc
        · rcases List.mem_append.mp hc with h | h
          · exact hflush _ _ h
          · exact ih _ _ _ h
        · exact ih _ _ _ hc
      · split at hc
        · split at hc
          · rcases List.mem_append.mp hc with h | h
            · exact hflush _ _ h
            · exact ih _ _ _ h
          · exact ih _ _ _ hc
        · exact ih _ _ _ hc

/-- Every chunk of the sliding-window loop reaches the minimum length. -/
theorem swLoop_min (t : Str) (minL maxL : Nat) :
    ∀ (fuel start : Nat) (c : Chunk), c ∈ swLoop t minL maxL fuel start →
      minL ≤ c.chunk_text.length := by
  intro fuel
  induction fuel with
  | zero => intro start c hc; cases hc
  | succ f ih =>
    intro start c hc
    simp only [swLoop] at hc
    split at hc
    · split at hc
      · rcases List.mem_cons.mp hc with h | h
        · subst h; assumption
        · exact ih _ _ h
      · exact ih _ _ hc
    · cases hc

/-- Raw size of a list of lines, counting one separator per line. -/
def linesBudget : List Str → Nat
  | [] => 0
  | l :: ls => l.length + 1 + linesBudget ls

theorem splitOnAux_budget (sep : Char) (t : Str) :
    (splitOnAux sep t).1.length + 1 + linesBudget (splitOnAux sep t).2 = t.length + 1 := by
  induction t with
  | nil => simp [splitOnAux, linesBudget]
  | cons c cs ih =>
    simp only [splitOnAux]
    cases hcs : c == sep
    · simp only [hcs, Bool.false_eq_true, if_false, List.length_cons]
      omega
    · simp only [hcs, if_true, List.length_nil, linesBudget, List.length_cons]
      omega

theorem linesBudget_splitOn (t : Str) :
    linesBudget (splitOn '\n' t) = t.length + 1 := by
  have h := splitOnAux_budget '\n' t
  simp only [splitOn, linesBudget]
  omega

/-- Size of the accumulator including a pending separator (zero when the
accumulator is empty). -/
def accBound : List Str → Nat
  | [] => 0
  | cur@(_ :: _) => (joinNL cur).length + 1

theorem joinNL_snoc_len (cur : List Str) (x : Str) :
    (joinNL (cur ++ [x])).length = accBound cur + x.length := by
  induction cur with
  | nil => simp [joinNL, accBound]
  | cons l ls ih =>
    cases ls with
    | nil => simp [joinNL, accBound]; omega
    | cons l2 ls2 =>
      have h1 : (l :: l2 :: ls2) ++ [x] = l :: ((l2 :: ls2) ++ [x]) := by simp
      have h3 : joinNL (l :: ((l2 :: ls2) ++ [x])) = l ++ '\n' :: joinNL ((l2 :: ls2) ++ [x]) := rfl
      rw [h1, h3, List.length_append, List.length_cons, ih]
      simp only [accBound, joinNL, List.length_append, List.length_cons]
      omega

theorem accBound_le (cur : List Str) : accBound cur ≤ (joinNL cur).length + 1 := by
  cases cur <;> simp [accBound]

theorem accBound_snoc_le (cur : List Str) (x y : Str) (hxy : x.length ≤ y.length) :
    accBound (cur ++ [x]) ≤ accBound cur + y.length + 1 := by
  have h1 : accBound (cur ++ [x]) = (joinNL (cur ++ [x])).length + 1 := by
    cases cur <;> rfl
  rw [h1, joinNL_snoc_len]
  omega

/-- Budget bound: every chunk the loop emits is strictly smaller than the
accumulator plus the raw size of the remaining lines. -/
theorem chunkLoop_le :
    ∀ (ls : List Str) (sec : Option Str) (cur : List Str) (c : Chunk),
      c ∈ chunkLoop ls sec cur →
      c.chunk_text.length + 1 ≤ accBound cur + linesBudget ls := by
  intro ls
  induction ls with
  | nil =>
    intro sec cur c hc
    simp only [chunkLoop] at hc
    cases hf : flushChunk sec cur with
    | none => rw [hf] at hc; cases hc
    | some c0 =>
      rw [hf] at hc
      have : c = c0 := by simpa using hc
      subst this
      have h1 := (flushChunk_spec hf).1
      have h2 : cur ≠ [] := by
        intro hnil
        rw [hnil] at hf
        simp [flushChunk] at hf
      have h3 : accBound cur = (joinNL cur).length + 1 := by
        cases cur
        · exact absurd rfl h2
        · rfl
      have h4 := trim_length_le (joinNL cur)
      rw [h1, h3]
      simp [linesBudget]
      omega
  | cons l ls ih =>
    intro sec cur c hc
    simp only [chunkLoop] at hc
    have hflush : ∀ s0, c ∈ (flushChunk s0 cur).toList →
        c.chunk_text.length + 1 ≤ accBound cur + linesBudget (l :: ls) := by
      intro s0 hmem
      cases hf : flushChunk s0 cur with
      | none => rw [hf] at hmem; cases hmem
      | some c0 =>
        rw [hf] at hmem
        have : c = c0 := by simpa using hmem
        subst this
        have h1 := (flushChunk_spec hf).1
        have h2 : cur ≠ [] := by
          intro hnil
          rw [hnil] at hf
          simp [flushChunk] at hf
        have h3 : accBound cur = (joinNL cur).length + 1 := by
          cases cur
          · exact absurd rfl h2
          · rfl
        have h4 := trim_length_le (joinNL cur)
        rw [h1, h3]
        simp [linesBudget]
        omega
    have htrim : (trim l).length ≤ l.length := trim_length_le l
    split at hc
    · rcases List.mem_append.mp hc with h | h
      · exact hflush _ h
      · have := ih _ _ _ h
        simp only [accBound, linesBudget] at *
        omega
    · split at hc
      · split at hc
        · rcases List.mem_append.mp hc with h | h
          · exact hflush _ h
          · have := ih _ _ _ h
            have hb : accBound [trim l] ≤ l.length + 1 := by
              simp [accBound, joinNL]
              omega
            simp only [linesBudget] at *
            omega
        · have := ih _ _ _ hc
          have hb := accBound_snoc_le cur (trim l) l htrim
          simp only [linesBudget] at *
          omega
      · split at hc
        · split at hc
          · rcases List.mem_append.mp hc with h | h
            · exact hflush _ h
            · have := ih _ _ _ h
              simp only [accBound, linesBudget] at *
              omega
          · have := ih _ _ _ hc
            simp only [linesBudget] at *
            omega
        · have := ih _ _ _ hc
          simp only [linesBudget] at *
          omega

/-- Every chunk of the primary chunker fits inside the document. -/
theorem primaryChunks_le (t : Str) (c : Chunk) (hc : c ∈ primaryChunks t) :
    c.chunk_text.length ≤ t.length := by
  have h := chunkLoop_le _ _ _ _ hc
  rw [linesBudget_splitOn] at h
  simp [accBound] at h
  omega

/-- On a document shorter than the minimum chunk length the sliding-window
loop emits nothing: every window slice trims below the minimum. -/
theorem swLoop_nil_of_short (t : Str) (h : t.length < minChunkLength) :
    ∀ (fuel start : Nat), swLoop t minChunkLength maxChunkLength fuel start = [] := by
  intro fuel
  induction fuel with
  | zero => intro start; rfl
  | succ f ih =>
    intro start
    rw [swLoop]
    split
    · have hslice : (slice t start (swEnd t minChunkLength maxChunkLength start)).length
          ≤ t.length := by
        unfold slice
        simp
      have htrim := trim_length_le (slice t start (swEnd t minChunkLength maxChunkLength start))
      simp only [ih]
      split
      · exfalso; omega
      · rfl
    · rfl

/-- The if-then-else shape of chunkResumeText, as an equation. -/
theorem chunkResumeText_eq (t : Str) :
    chunkResumeText t =
      if (primaryChunks t).length == 0 then
        createSlidingWindowChunks t minChunkLength maxChunkLength
      else primaryChunks t := rfl

/-- C9 helper: a document shorter than the minimum chunk length yields no
primary chunks. -/
theorem primaryChunks_nil_of_short (t : Str) (h : t.length < minChunkLength) :
    primaryChunks t = [] := by
  rw [List.eq_nil_iff_forall_not_mem]
  intro c hc
  have h1 := chunkLoop_min _ _ _ _ hc
  have h2 := primaryChunks_le t c hc
  omega

/-! ## Claim theorems -/

/-- C5: the chunk list is produced entirely by one algorithm.  If the
primary section-based chunker emits at least one chunk, chunkResumeText
returns exactly those chunks and the sliding-window segmenter's output is
not used; if the primary chunker emits nothing, the result is exactly the
sliding-window segmenter's output (all-or-nothing fallback, never mixed). -/
theorem claim_C5_fallback_exclusive (t : Str) :
    (0 < (primaryChunks t).length ∧ chunkResumeText t = primaryChunks t) ∨
    (primaryChunks t = [] ∧
      chunkResumeText t = createSlidingWindowChunks t minChunkLength maxChunkLength) := by
  rw [chunkResumeText_eq]
  cases hp : primaryChunks t with
  | nil => right; simp
  | cons a l => left; simp

/-- C6: the engine is deterministic — both extractFields and
chunkResumeText are functions of the input text, so running either twice
on the same text yields identical results. -/
theorem claim_C6_deterministic (t : Str) :
    extractFields t = extractFields t ∧ chunkResumeText t = chunkResumeText t :=
  ⟨rfl, rfl⟩

/-- C9: an input shorter than MIN_CHUNK (50) yields the empty chunk list:
the primary chunker emits nothing (every flush is below the threshold) and
the sliding-window fallback also emits nothing (no slice can reach
MIN_CHUNK after trimming). -/
theorem claim_C9_short_input_empty (t : Str) (h : t.length < minChunkLength) :
    chunkResumeText t = [] := by
  rw [chunkResumeText_eq, primaryChunks_nil_of_short t h]
  simp only [List.length_nil, if_pos]
  unfold createSlidingWindowChunks
  rw [swLoop_nil_of_short t h]
  rfl

/-- Witness for C9 at the concrete input "too short". -/
theorem claim_C9_witness : chunkResumeText (S "too short") = [] :=
  claim_C9_short_input_empty (S "too short") (by decide)

/-- C2 amended: every chunk returned by chunkResumeText — primary or
fallback — has text length at least MIN_CHUNK (50); chunks are only
emitted after an explicit length check.  The claimed upper bound
MAX_CHUNK does not hold for the primary chunker (see the counterexample):
the accumulator is flushed only before appending a line, so a single long
line yields a chunk longer than MAX_CHUNK. -/
theorem claim_C2_amended (t : Str) (c : Chunk) (hc : c ∈ chunkResumeText t) :
    minChunkLength ≤ c.chunk_text.length := by
  rw [chunkResumeText_eq] at hc
  split at hc
  · exact swLoop_min t _ _ _ _ _ hc
  · exact chunkLoop_min _ _ _ _ hc

/-- A 60-character single-line document and its unique chunk. -/
def sixtyXs : Str := List.replicate 60 'x'

def sixtyXsChunk : Chunk :=
  { chunk_text := sixtyXs, sectionTag := none, company := none,
    start_date := none, end_date := none }

/-- Witness for C2 amended at a concrete 60-character document. -/
theorem claim_C2_witness : minChunkLength ≤ sixtyXsChunk.chunk_text.length :=
  claim_C2_amended sixtyXs sixtyXsChunk (by decide)

/-- A single line of 501 commas: no section header, no bullet, below no
flush trigger, so the final flush emits it as one primary chunk of
length 501 > MAX_CHUNK. -/
def commas501 : Str := List.replicate 501 ','

def commas501Chunk : Chunk :=
  { chunk_text := commas501, sectionTag := none, company := none,
    start_date := none, end_date := none }

/-- Counterexample to C2 as stated: the primary (section-based) chunker
emits a chunk of length 501, exceeding MAX_CHUNK = 500. -/
theorem claim_C2_counterexample :
    primaryChunks commas501 = [commas501Chunk] ∧
    maxChunkLength < commas501Chunk.chunk_text.length := by
  constructor
  · decide
  · decide

/-- Trimmed content of a list of lines: the length of each non-blank
trimmed line plus one separator per non-blank line. -/
def contentBudget : List Str → Nat
  | [] => 0
  | l :: ls => (if (trim l).length = 0 then 0 else (trim l).length + 1) + contentBudget ls

/-- When no line is a section header and the accumulated text plus all
remaining trimmed content stays below MIN_CHUNK, the loop can never flush
a chunk: it returns the empty list. -/
theorem chunkLoop_nil_of_small :
    ∀ (ls : List Str) (sec : Option Str) (cur : List Str),
      (∀ l ∈ ls, findHeader (toLower (trim l)) = none) →
      (joinNL cur).length + contentBudget ls < minChunkLength →
      chunkLoop ls sec cur = [] := by
  intro ls
  induction ls with
  | nil =>
    intro sec cur _ hsmall
    simp only [contentBudget] at hsmall
    simp only [chunkLoop]
    rw [flushChunk_none (by omega)]
    rfl
  | cons l ls ih =>
    intro sec cur hh hsmall
    have hl : findHeader (toLower (trim l)) = none := hh l (by simp)
    have hrest : ∀ l2 ∈ ls, findHeader (toLower (trim l2)) = none :=
      fun l2 h2 => hh l2 (by simp [h2])
    simp only [contentBudget] at hsmall
    simp only [chunkLoop, hl]
    by_cases hline : (trim l).length > 0
    · rw [if_pos hline]
      have hif : (if (trim l).length = 0 then 0 else (trim l).length + 1)
          = (trim l).length + 1 := by
        rw [if_neg (by omega)]
      rw [hif] at hsmall
      have h1 : decide ((joinNL cur).length > maxChunkLength / 2) = false := by
        simp only [decide_eq_false_iff_not, not_lt, maxChunkLength, minChunkLength] at *
        omega
      have h2 : decide ((joinNL cur).length > maxChunkLength) = false := by
        simp only [decide_eq_false_iff_not, not_lt, maxChunkLength, minChunkLength] at *
        omega
      rw [h1, h2]
      simp only [Bool.and_false, Bool.or_false, Bool.false_eq_true, if_false]
      apply ih _ _ hrest
      have hsnoc := joinNL_snoc_len cur (trim l)
      have hacc := accBound_le cur
      omega
    · rw [if_neg hline]
      have hzero : (trim l).length = 0 := by omega
      rw [hzero] at hsmall
      simp only [if_pos rfl] at hsmall
      by_cases hcur : cur = []
      · subst hcur
        have hcond : (decide ((trim l).length = 0) && !(([] : List Str) == [])) = false := by
          simp
        rw [hcond]
        simp only [Bool.false_eq_true, if_false]
        apply ih _ _ hrest
        simpa using hsmall
      · have hne : (cur == []) = false := by
          rw [beq_eq_false_iff_ne]
          exact hcur
        have hcond : (decide ((trim l).length = 0) && !(cur == [])) = true := by
          rw [hne, hzero]
          simp
        rw [hcond]
        simp only [if_pos rfl]
        have hJ : ¬ ((joinNL cur).length > minChunkLength) := by omega
        rw [if_neg hJ]
        exact ih _ _ hrest (by omega)

/-- C4 amended: the hypotheses of the original claim do not force the
fallback route (short paragraphs accumulate across single blank lines —
see the counterexample).  What holds: when no line classifies as a section
header and the joined trimmed content of all lines is below MIN_CHUNK, the
primary chunker emits nothing and chunkResumeText returns exactly the
sliding-window fallback's output (which may itself still be empty). -/
theorem claim_C4_amended (t : Str)
    (hh : ∀ l ∈ splitOn '\n' t, findHeader (toLower (trim l)) = none)
    (hsmall : contentBudget (splitOn '\n' t) < minChunkLength) :
    chunkResumeText t = createSlidingWindowChunks t minChunkLength maxChunkLength := by
  have hp : primaryChunks t = [] := by
    apply chunkLoop_nil_of_small _ _ _ hh
    simp only [joinNL, List.length_nil]
    omega
  rw [chunkResumeText_eq, hp]
  rfl

/-- Witness for C4 amended at a concrete two-paragraph document. -/
theorem claim_C4_witness :
    chunkResumeText (S "hey\n\nthere") =
      createSlidingWindowChunks (S "hey\n\nthere") minChunkLength maxChunkLength :=
  claim_C4_amended (S "hey\n\nthere") (by decide) (by decide)

/-- A 48-character line of x characters. -/
def xLine48 : Str := List.replicate 48 'x'

/-- Eleven 48-character paragraphs separated by blank lines: 550 characters
in total, no section headers, every paragraph under MIN_CHUNK. -/
def elevenParas : Str := (List.replicate 11 (xLine48 ++ S "\n\n")).flatten

/-- Paragraphs in the sense of the claim: maximal blank-line-free runs of
lines, joined with newlines.  Modelled from the claim's wording. -/
def specParagraphs (t : Str) : List Str :=
  (go (splitOn '\n' t) []).map joinNL
where
  go : List Str → List Str → List (List Str)
  | [], acc => if acc.isEmpty then [] else [acc.reverse]
  | l :: ls, acc =>
    if (trim l).length = 0 then
      if acc.isEmpty then go ls [] else acc.reverse :: go ls []
    else go ls (l :: acc)

/-- Counterexample to C4 as stated: a document satisfying all the claim's
hypotheses (no section-header lines, every paragraph shorter than
MIN_CHUNK, total length above MAX_CHUNK and MIN_CHUNK) for which the
primary chunker emits five chunks, so chunkResumeText does not route
through the sliding-window fallback: short paragraphs accumulate across
single blank lines until the accumulator passes MIN_CHUNK. -/
theorem claim_C4_counterexample :
    ((splitOn '\n' elevenParas).all
      (fun l => (findHeader (toLower (trim l))).isNone)) = true ∧
    ((specParagraphs elevenParas).all (fun p => decide (p.length < minChunkLength))) = true ∧
    maxChunkLength < elevenParas.length ∧
    minChunkLength ≤ elevenParas.length ∧
    (primaryChunks elevenParas).length = 5 ∧
    chunkResumeText elevenParas = primaryChunks elevenParas := by
  refine ⟨by decide, by decide, by decide, by decide, by decide, ?_⟩
  rw [chunkResumeText_eq]
  have h5 : (primaryChunks elevenParas).length = 5 := by decide
  rw [if_neg]
  simp [h5]

/-- The end date built by mkDates is never the exact string "Present" or
"Current": those two exact strings are mapped to an absent end date. -/
theorem mkDates_end_not_literal (g1 : Str) (g2 : Option Str) :
    ((mkDates g1 g2).end_date == some (S "Present")
      || (mkDates g1 g2).end_date == some (S "Current")) = false := by
  unfold mkDates
  cases g2 with
  | none => rfl
  | some s =>
    by_cases hs : (s == []) = true
    · simp [hs]
    · rw [Bool.not_eq_true] at hs
      simp only [hs, Bool.false_eq_true, if_false]
      cases hcond : (!(trim s == ([] : Str))
          && (trim s == S "Present" || trim s == S "Current")) with
      | true => simp [hcond]
      | false =>
        simp only [hcond, Bool.false_eq_true, if_false]
        rcases Bool.and_eq_false_iff.mp hcond with hnil | hor
        · have he : trim s = [] := by
            have h1 : (trim s == ([] : Str)) = true := by
              cases h2 : (trim s == ([] : Str))
              · rw [h2] at hnil; simp at hnil
              · rfl
            exact eq_of_beq h1
          rw [he]
          decide
        · have h1 : (trim s == S "Present") = false := by
            cases hP : (trim s == S "Present")
            · rfl
            · rw [hP] at hor; simp at hor
          have h2 : (trim s == S "Current") = false := by
            cases hC : (trim s == S "Current")
            · rfl
            · rw [hC] at hor
              rw [Bool.or_true] at hor
              cases hor
          show (some (trim s) == some (S "Present")
            || some (trim s) == some (S "Current")) = false
          have e1 : (some (trim s) == some (S "Present")) = (trim s == S "Present") := rfl
          have e2 : (some (trim s) == some (S "Current")) = (trim s == S "Current") := rfl
          rw [e1, e2, h1, h2]
          rfl

/-- The pattern cascade of extractDates always builds its result through
mkDates, so the literal-"Present"/"Current" exclusion holds for it. -/
theorem tryDatePatterns_end_not_literal (ps : List RE) (t : Str) :
    ((tryDatePatterns ps t).end_date == some (S "Present")
      || (tryDatePatterns ps t).end_date == some (S "Current")) = false := by
  induction ps with
  | nil => rfl
  | cons p ps ih =>
    simp only [tryDatePatterns]
    cases h : tryOnePattern p t with
    | none => exact ih
    | some g => exact mkDates_end_not_literal g.1 g.2

/-- C3 amended: an end token that is exactly the string "Present" or
"Current" is normalized to an absent end date, and consequently
extractDates never stores either exact string as the end date; however the
comparison in the source is case-sensitive, so other casings of the token
(for example "present") are stored literally — see the counterexample. -/
theorem claim_C3_amended (t : Str) :
    ((extractDates t).end_date == some (S "Present")
      || (extractDates t).end_date == some (S "Current")) = false :=
  tryDatePatterns_end_not_literal datePatterns t

/-- Counterexample to C3 as stated: the date patterns match
"Jan 2020 - present" case-insensitively, but the Present/Current
normalization compares case-sensitively, so the lowercase token is stored
literally as the end date instead of being normalized to absent. -/
theorem claim_C3_counterexample :
    extractDates (S "Jan 2020 - present") =
      { start_date := some (S "Jan 2020"), end_date := some (S "present") } := by
  decide

/-- Digits are not whitespace. -/
theorem digit_not_ws (c : Char) (h : isDigitC c = true) : jsWS c = false := by
  by_contra hws
  rw [Bool.not_eq_false] at hws
  unfold jsWS at hws
  simp only [Bool.or_eq_true, beq_iff_eq] at hws
  rcases hws with ((((rfl | rfl) | rfl) | rfl) | rfl) | rfl <;> revert h <;> decide

/-- An all-digit string is unchanged by trim. -/
theorem trim_of_digits (y : Str) (h : ∀ c ∈ y, isDigitC c = true) : trim y = y :=
  trim_of_no_ws y (fun c hc => digit_not_ws c (h c hc))

/-- A month name is unchanged by trim. -/
theorem trim_of_month (m : Str) (hm : m ∈ fullMonthNames) : trim m = m := by
  simp only [fullMonthNames, List.mem_cons, List.not_mem_nil, or_false] at hm
  rcases hm with rfl | rfl | rfl | rfl | rfl | rfl | rfl | rfl | rfl | rfl | rfl | rfl <;> decide

/-- An all-digit non-empty string is not the string "Present" or
"Current". -/
theorem digits_not_token (y : Str) (h : ∀ c ∈ y, isDigitC c = true) :
    (y == S "Present") = false ∧ (y == S "Current") = false := by
  constructor
  · cases hb : y == S "Present"
    · rfl
    · exfalso
      have hy : y = S "Present" := eq_of_beq hb
      subst hy
      have := h 'P' (by decide)
      revert this
      decide
  · cases hb : y == S "Current"
    · rfl
    · exfalso
      have hy : y = S "Current" := eq_of_beq hb
      subst hy
      have := h 'C' (by decide)
      revert this
      decide

/-- C10: when the first-matching date pattern is the full-month-name range
pattern, whose group 1 is the start month name alone and whose group 2 is
the start year, extractDates returns exactly those two groups: the start
date is the month name alone and the end date is the start year, not the
end of the range. -/
theorem claim_C10_full_month_groups (t m y : Str)
    (hmatch : tryOnePattern fullMonthRangeRE t = some (m, some y))
    (hm : m ∈ fullMonthNames)
    (hy : y ≠ [])
    (hyd : ∀ c ∈ y, isDigitC c = true) :
    extractDates t = { start_date := some m, end_date := some y } := by
  unfold extractDates datePatterns
  simp only [tryDatePatterns, hmatch]
  unfold mkDates
  have htm : trim m = m := trim_of_month m hm
  have hty : trim y = y := trim_of_digits y hyd
  have hP := (digits_not_token y hyd).1
  have hC := (digits_not_token y hyd).2
  have hynil : (y == ([] : Str)) = false := by
    cases hb : y == ([] : Str)
    · rfl
    · exact absurd (eq_of_beq hb) hy
  simp only [hynil, Bool.false_eq_true, if_false, htm, hty, hP, hC, Bool.not_false,
    Bool.or_self, Bool.and_false, Bool.false_or]

/-- Witness for C10 at the concrete chunk text
"January 2020 - December 2022". -/
theorem claim_C10_witness :
    extractDates (S "January 2020 - December 2022") =
      { start_date := some (S "January"), end_date := some (S "2020") } :=
  claim_C10_full_month_groups (S "January 2020 - December 2022")
    (S "January") (S "2020")
    (by decide) (by decide) (by decide) (by decide)

/-- The per-line name test of extractName: the trimmed line's name-regex
capture, when it is non-empty and contains no at-sign. -/
def nameCandidate (l : Str) : Option Str :=
  match research nameRE (trim l) with
  | some m =>
    match lookupCap 1 m.caps with
    | some g => if g != [] && !(jsIncludes g (S "@")) then some g else none
    | none => none
  | none => none

/-- The amended name heuristic, stated as the amended claim reads: the
candidates are the non-blank lines among the first five raw lines of the
document; return the first candidate accepted by the name regex, else the
trimmed first candidate when its length lies strictly between 2 and 50,
else nothing. -/
def extractNameAmended (text : Str) : Option Str :=
  let candidates := ((splitOn '\n' text).take 5).filter (fun l => (trim l).length > 0)
  match candidates.findSome? nameCandidate with
  | some n => some n
  | none =>
    candidates.head?.bind (fun first =>
      if decide ((trim first).length > 2) && decide ((trim first).length < 50) then
        some (trim first)
      else none)

theorem nameScan_cons (l : Str) (ls : List Str) :
    nameScan (l :: ls) = match nameCandidate l with
      | some g => some g
      | none => nameScan ls := by
  cases hr : research nameRE (trim l) with
  | none => simp [nameScan, nameCandidate, hr]
  | some m =>
    cases hcap : lookupCap 1 m.caps with
    | none => simp [nameScan, nameCandidate, hr, hcap]
    | some g =>
      cases hg : (g != [] && !(jsIncludes g (S "@"))) <;>
        simp [nameScan, nameCandidate, hr, hcap, hg]

theorem nameScan_eq_findSome (ls : List Str) :
    nameScan ls = ls.findSome? nameCandidate := by
  induction ls with
  | nil => rfl
  | cons l ls ih =>
    rw [nameScan_cons, List.findSome?_cons, ih]
    cases nameCandidate l <;> rfl

/-- C7 amended: the name extractor scans the non-blank lines among the
first 5 raw lines of the document (not the first 5 non-blank lines, so a
name preceded by enough blank or non-matching lines is missed — see the
counterexample); it returns the first such line matching the name regex,
and otherwise falls back to the first such line when its trimmed length is
strictly between 2 and 50. -/
theorem claim_C7_amended (t : Str) : extractName t = extractNameAmended t := by
  unfold extractName extractNameAmended
  simp only [nameScan_eq_findSome]
  cases h : ((splitOn '\n' t).take 5).filter (fun l => (trim l).length > 0) with
  | nil => simp
  | cons first rest => simp

/-- The non-blank lines of a document, in order (a line is blank when it
trims to nothing).  Modelled from the claim's wording. -/
def nonBlankLines (t : Str) : List Str :=
  (splitOn '\n' t).filter (fun l => (trim l).length > 0)

/-- Counterexample to C7 as stated: in this document the 5th non-blank
line is "John Smith", which the name heuristic accepts, yet extractName
returns nothing, because the code takes the first 5 raw lines before
discarding blank lines rather than scanning the first 5 non-blank lines. -/
theorem claim_C7_counterexample :
    nonBlankLines (S "\nA\nB\nC\nD\nJohn Smith") =
      [S "A", S "B", S "C", S "D", S "John Smith"] ∧
    (nameCandidate (S "John Smith")).isSome = true ∧
    extractName (S "\nA\nB\nC\nD\nJohn Smith") = none := by
  refine ⟨by decide, by decide, by decide⟩

/-- Progress of the sliding window at the chunker's parameters: the chosen
window end lies strictly beyond the start (boundary snapping never moves it
to or before start + MIN_CHUNK), so the next start advances by at least 2. -/
theorem swEnd_progress (t : Str) (start : Nat) (_h : start < t.length) :
    start < swEnd t minChunkLength maxChunkLength start ∧
    start + 2 ≤ swEnd t minChunkLength maxChunkLength start - 50 := by
  unfold swEnd minChunkLength maxChunkLength
  by_cases he : start + 500 < t.length
  · rw [if_pos he]
    set boundary := max (lastIndexOfFrom t '.' (start + 500))
      (lastIndexOfFrom t '\n' (start + 500)) with hb
    by_cases hbd : boundary > (start : Int) + (50 : Nat)
    · rw [if_pos hbd]
      have h1 : (start : Int) + 51 ≤ boundary := by omega
      have h2 : start + 51 ≤ boundary.toNat := by omega
      omega
    · rw [if_neg hbd]
      omega
  · rw [if_neg he]
    omega

/-- The sliding-window loop does not depend on the fuel, as soon as the
fuel covers the remaining distance: each iteration advances the start by
at least 2. -/
theorem swLoop_fuel_eq (t : Str) :
    ∀ (f g start : Nat), t.length ≤ start + 2 * f → t.length ≤ start + 2 * g →
      swLoop t minChunkLength maxChunkLength f start
        = swLoop t minChunkLength maxChunkLength g start := by
  intro f
  induction f with
  | zero =>
    intro g start h1 _
    cases g with
    | zero => rfl
    | succ g =>
      rw [swLoop, swLoop]
      rw [if_neg (by omega)]
  | succ f ih =>
    intro g start h1 h2
    by_cases hs : start < t.length
    · have hg : g ≠ 0 := by omega
      obtain ⟨g2, rfl⟩ : ∃ g2, g = g2 + 1 := ⟨g - 1, by omega⟩
      rw [swLoop, swLoop]
      rw [if_pos hs, if_pos hs]
      have hprog := swEnd_progress t start hs
      simp only [ih g2 (swEnd t minChunkLength maxChunkLength start - 50) (by omega) (by omega)]
    · cases g with
      | zero =>
        rw [swLoop, swLoop]
        rw [if_neg hs]
      | succ g =>
        rw [swLoop, swLoop]
        rw [if_neg hs, if_neg hs]

/-- C8: termination of the sliding-window segmenter.  On every iteration
with start inside the text, the window end exceeds the start and the next
start (end minus the 50-character overlap) advances by at least 2; the
loop stops once the start reaches the text length, and consequently the
result does not depend on the iteration fuel once the fuel covers the
remaining distance (in particular createSlidingWindowChunks, which uses
fuel text length + 1, computes the loop's unique fixed result). -/
theorem claim_C8_termination (t : Str) (start f g : Nat) :
    (start < t.length →
      start < swEnd t minChunkLength maxChunkLength start ∧
      start + 2 ≤ swEnd t minChunkLength maxChunkLength start - 50) ∧
    (t.length ≤ start + 2 * f → t.length ≤ start + 2 * g →
      swLoop t minChunkLength maxChunkLength f start
        = swLoop t minChunkLength maxChunkLength g start) ∧
    (t.length ≤ f →
      createSlidingWindowChunks t minChunkLength maxChunkLength
        = swLoop t minChunkLength maxChunkLength (f + 1) 0) := by
  refine ⟨swEnd_progress t start, swLoop_fuel_eq t f g start, fun hf => ?_⟩
  unfold createSlidingWindowChunks
  exact swLoop_fuel_eq t (t.length + 1) (f + 1) 0 (by omega) (by omega)

/-- Witness for C8 at a concrete document, start 0, and fuels 60 and 77. -/
theorem claim_C8_witness :
    (0 < swEnd (S "hello. world") minChunkLength maxChunkLength 0 ∧
      0 + 2 ≤ swEnd (S "hello. world") minChunkLength maxChunkLength 0 - 50) ∧
    swLoop (S "hello. world") minChunkLength maxChunkLength 60 0
      = swLoop (S "hello. world") minChunkLength maxChunkLength 77 0 ∧
    createSlidingWindowChunks (S "hello. world") minChunkLength maxChunkLength
      = swLoop (S "hello. world") minChunkLength maxChunkLength 61 0 := by
  have h := claim_C8_termination (S "hello. world") 0 60 77
  have h3 := (claim_C8_termination (S "hello. world") 0 60 77).2.2 (by decide)
  exact ⟨h.1 (by decide), h.2.1 (by decide) (by decide), by simpa using h3⟩

/-- The literal end-to-end scenario input of the spec. -/
def scenarioText : Str :=
  S "John Smith\njohn@x.com\n\nExperience\nAcme Corp\nJan 2020 - Present\nBuilt the thing. Built another thing. Built a third thing that takes this line past fifty characters easily."

/-- The single chunk chunkResumeText produces for the scenario input. -/
def scenarioChunk : Chunk :=
  { chunk_text :=
      S "Acme Corp\nJan 2020 - Present\nBuilt the thing. Built another thing. Built a third thing that takes this line past fifty characters easily."
    sectionTag := some (S "Experience")
    company := some (S "takes")
    start_date := some (S "Jan 2020")
    end_date := none }

theorem scenario_chunks_eval : chunkResumeText scenarioText = [scenarioChunk] := by
  decide

theorem scenario_fields_eval :
    extractFields scenarioText =
      { name := some (S "John Smith"), email := some (S "john@x.com"),
        phone := none, linkedin := none, location := none, title := none,
        skills := [], experience_years := none } := by
  decide

/-- C1 amended: on the literal scenario input, extractFields yields
name "John Smith" and email "john@x.com", and chunkResumeText yields
exactly one chunk with section "Experience", start date "Jan 2020" and an
absent end date — but the company is "takes", not "Acme Corp": the first
company pattern carries the i flag, under which its keyword alternation
matches the letters "at" inside "that" and its `[A-Z]` accepts the
lowercase word "takes" that follows. -/
theorem claim_C1_scenario :
    extractFields scenarioText =
      { name := some (S "John Smith"), email := some (S "john@x.com"),
        phone := none, linkedin := none, location := none, title := none,
        skills := [], experience_years := none } ∧
    chunkResumeText scenarioText = [scenarioChunk] :=
  ⟨scenario_fields_eval, scenario_chunks_eval⟩

/-- Counterexample to C1 as stated: the single chunk's company is the
string "takes", not "Acme Corp". -/
theorem claim_C1_counterexample :
    (chunkResumeText scenarioText).map (fun c => c.company) = [some (S "takes")] ∧
    ((some (S "takes") : Option Str) == some (S "Acme Corp")) = false := by
  rw [scenario_chunks_eval]
  exact ⟨rfl, by decide⟩

end ResumeSearch

